import Mathlib

/-!
Verification of the Participant Reliability Index (PRI) scoring engine of
the global-dialogues repository (tools/scripts/calculate_pri.py).

The Python functions are shallowly embedded as executable Lean definitions:
pandas cell values that may be NaN become `Option ℚ`, tables become lists of
rows, and exceptions become `Except`.  Each definition carries the name of
the Python function it embeds where Lean allows it.
-/

namespace PRI

/-- Configuration constants built by `get_config` in calculate_pri.py
(the PRI parameters and component weights; file paths are out of scope). -/
structure PRIConfig where
  ASC_HIGH_THRESHOLD : ℚ
  ASC_LOW_THRESHOLD : ℚ
  UNIVERSAL_DISAGREEMENT_THRESHOLD_ALL : ℚ
  UNIVERSAL_DISAGREEMENT_THRESHOLD_SEGMENTS : ℚ
  MAJOR_SEGMENT_MIN_PARTICIPANTS : ℕ
  DURATION_REASONABLE_MAX : ℚ
  DURATION_WEIGHT : ℚ
  LOW_QUALITY_TAG_WEIGHT : ℚ
  UNIVERSAL_DISAGREEMENT_WEIGHT : ℚ
  ASC_WEIGHT : ℚ
  DURATION_WEIGHT_LLM : ℚ
  LOW_QUALITY_TAG_WEIGHT_LLM : ℚ
  UNIVERSAL_DISAGREEMENT_WEIGHT_LLM : ℚ
  ASC_WEIGHT_LLM : ℚ
  LLM_JUDGE_WEIGHT : ℚ

/-- Values assigned in `get_config` of calculate_pri.py. -/
def get_config : PRIConfig where
  ASC_HIGH_THRESHOLD := 0.70
  ASC_LOW_THRESHOLD := 0.30
  UNIVERSAL_DISAGREEMENT_THRESHOLD_ALL := 0.30
  UNIVERSAL_DISAGREEMENT_THRESHOLD_SEGMENTS := 0.40
  MAJOR_SEGMENT_MIN_PARTICIPANTS := 20
  DURATION_REASONABLE_MAX := 60 * 90
  DURATION_WEIGHT := 0.30
  LOW_QUALITY_TAG_WEIGHT := 0.30
  UNIVERSAL_DISAGREEMENT_WEIGHT := 0.20
  ASC_WEIGHT := 0.20
  DURATION_WEIGHT_LLM := 0.20
  LOW_QUALITY_TAG_WEIGHT_LLM := 0.20
  UNIVERSAL_DISAGREEMENT_WEIGHT_LLM := 0.15
  ASC_WEIGHT_LLM := 0.15
  LLM_JUDGE_WEIGHT := 0.30

/-- Heuristic weight set used by `normalize_and_calculate_pri`: when ASC is
available the four configured weights, otherwise the ASC weight is divided
by 3 and added to each of the three remaining components
(the `heuristic_weights` dictionaries in the two branches). -/
def heuristic_weights (config : PRIConfig) (asc_available : Bool) : List ℚ :=
  if asc_available then
    [config.DURATION_WEIGHT, config.LOW_QUALITY_TAG_WEIGHT,
     config.UNIVERSAL_DISAGREEMENT_WEIGHT, config.ASC_WEIGHT]
  else
    [config.DURATION_WEIGHT + config.ASC_WEIGHT / 3,
     config.LOW_QUALITY_TAG_WEIGHT + config.ASC_WEIGHT / 3,
     config.UNIVERSAL_DISAGREEMENT_WEIGHT + config.ASC_WEIGHT / 3]

/-- Enhanced (LLM-judge) weight set used by `normalize_and_calculate_pri`:
when ASC is available the five configured weights, otherwise the
ASC_WEIGHT_LLM weight is divided by 4 and added to each of the four
remaining components (the `enhanced_weights` dictionaries). -/
def enhanced_weights (config : PRIConfig) (asc_available : Bool) : List ℚ :=
  if asc_available then
    [config.DURATION_WEIGHT_LLM, config.LOW_QUALITY_TAG_WEIGHT_LLM,
     config.UNIVERSAL_DISAGREEMENT_WEIGHT_LLM, config.ASC_WEIGHT_LLM,
     config.LLM_JUDGE_WEIGHT]
  else
    [config.DURATION_WEIGHT_LLM + config.ASC_WEIGHT_LLM / 4,
     config.LOW_QUALITY_TAG_WEIGHT_LLM + config.ASC_WEIGHT_LLM / 4,
     config.UNIVERSAL_DISAGREEMENT_WEIGHT_LLM + config.ASC_WEIGHT_LLM / 4,
     config.LLM_JUDGE_WEIGHT + config.ASC_WEIGHT_LLM / 4]

/-- Per-row heuristic PRI score (`PRI_Score_Heuristic` column computed in
`normalize_and_calculate_pri`): dot product of the normalized signals with
the heuristic weight set, with ASC weight redistribution when ASC is
globally unavailable. -/
def pri_score_heuristic (config : PRIConfig) (asc_available : Bool)
    (duration_norm low_quality_norm universal_norm asc_norm : ℚ) : ℚ :=
  if asc_available then
    duration_norm * config.DURATION_WEIGHT +
    low_quality_norm * config.LOW_QUALITY_TAG_WEIGHT +
    universal_norm * config.UNIVERSAL_DISAGREEMENT_WEIGHT +
    asc_norm * config.ASC_WEIGHT
  else
    duration_norm * (config.DURATION_WEIGHT + config.ASC_WEIGHT / 3) +
    low_quality_norm * (config.LOW_QUALITY_TAG_WEIGHT + config.ASC_WEIGHT / 3) +
    universal_norm * (config.UNIVERSAL_DISAGREEMENT_WEIGHT + config.ASC_WEIGHT / 3)

/-- Per-row enhanced PRI score (`PRI_Score_Enhanced` column computed in
`normalize_and_calculate_pri` when the LLM judge signal is available). -/
def pri_score_enhanced (config : PRIConfig) (asc_available : Bool)
    (duration_norm low_quality_norm universal_norm asc_norm llm_judge_norm : ℚ) : ℚ :=
  if asc_available then
    duration_norm * config.DURATION_WEIGHT_LLM +
    low_quality_norm * config.LOW_QUALITY_TAG_WEIGHT_LLM +
    universal_norm * config.UNIVERSAL_DISAGREEMENT_WEIGHT_LLM +
    asc_norm * config.ASC_WEIGHT_LLM +
    llm_judge_norm * config.LLM_JUDGE_WEIGHT
  else
    duration_norm * (config.DURATION_WEIGHT_LLM + config.ASC_WEIGHT_LLM / 4) +
    low_quality_norm * (config.LOW_QUALITY_TAG_WEIGHT_LLM + config.ASC_WEIGHT_LLM / 4) +
    universal_norm * (config.UNIVERSAL_DISAGREEMENT_WEIGHT_LLM + config.ASC_WEIGHT_LLM / 4) +
    llm_judge_norm * (config.LLM_JUDGE_WEIGHT + config.ASC_WEIGHT_LLM / 4)

/-- Numeric value of a digit list as a natural number, most significant
first (helper for the model of the Python float constructor). -/
def digitsNat (cs : List Char) : ℕ :=
  cs.foldl (fun a c => a * 10 + (c.toNat - 48)) 0

/-- Numeric value of a digit list as a rational. -/
def digitsVal (cs : List Char) : ℚ :=
  (digitsNat cs : ℚ)

/-- Model of the Python str.strip method with no argument: removal of
leading and trailing whitespace. -/
def pyStrip (s : String) : String :=
  String.mk (((s.data.dropWhile Char.isWhitespace).reverse.dropWhile Char.isWhitespace).reverse)

/-- Model of the Python str.endswith method applied to the percent sign:
the last character is a percent sign. -/
def ends_with_percent (s : String) : Bool :=
  match s.data.reverse with
  | [] => false
  | c :: _ => c = '%'

/-- Model of the Python builtin float constructor on strings, restricted to
plain decimal literals: optional sign, digits, optional decimal point (at
least one digit overall).  Returns none when Python float would raise
ValueError.  Exponent and special forms are outside the inputs this
pipeline feeds it. -/
def strToFloat? (s : String) : Option ℚ :=
  match s.data with
  | [] => none
  | c :: cs =>
    let body : List Char := if c = '+' ∨ c = '-' then cs else c :: cs
    let sign : ℚ := if c = '-' then -1 else 1
    let intPart := body.takeWhile (fun d => d ≠ '.')
    let rest := body.dropWhile (fun d => d ≠ '.')
    if intPart.all Char.isDigit then
      match rest with
      | [] =>
        if intPart.isEmpty then none
        else some (sign * digitsVal intPart)
      | _ :: frac =>
        if frac.all Char.isDigit ∧ (intPart.isEmpty → ¬frac.isEmpty) then
          some (sign * (digitsVal intPart + digitsVal frac / 10 ^ frac.length))
        else none
    else none

/-- Removal of every trailing percent sign, the Python expression
value_str.rstrip applied with the percent character. -/
def rstripPercent (s : String) : String :=
  String.mk ((s.data.reverse.dropWhile (fun c => c = '%')).reverse)

/-- A pandas cell value as seen by parse_percentage: NaN, a number, or a
string. -/
inductive PyVal where
  | nan : PyVal
  | num (x : ℚ) : PyVal
  | str (s : String) : PyVal

/-- Embedding of parse_percentage in calculate_pri.py: NaN stays missing;
a number above 1 is divided by 100, otherwise passed through; a stripped
string ending in a percent sign is parsed and divided by 100; a bare dash
is missing; any other string is parsed with the same above-1 rule; every
parse failure (the caught ValueError) is missing. -/
def parse_percentage : PyVal → Option ℚ
  | PyVal.nan => none
  | PyVal.num x => some (if x > 1 then x / 100 else x)
  | PyVal.str s =>
    let value_str := pyStrip s
    if ends_with_percent value_str then
      (strToFloat? (rstripPercent value_str)).map (fun v => v / 100)
    else if value_str = "-" ∨ value_str = " - " then
      none
    else
      (strToFloat? value_str).map (fun v => if v > 1 then v / 100 else v)

/-- Embedding of the VoteNumeric column construction in load_data:
binary_df Vote values are mapped through the literal dictionary with keys
Agree, agree, Disagree, disagree; every other value becomes NaN. -/
def vote_numeric (vote : String) : Option ℚ :=
  if vote = "Agree" then some 1
  else if vote = "agree" then some 1
  else if vote = "Disagree" then some 0
  else if vote = "disagree" then some 0
  else none

/-- One row of the binary vote table after load_data: participant, thought
and the VoteNumeric value (1 agree, 0 disagree, none missing). -/
structure VoteRow where
  participant_id : String
  thought_id : String
  vote : Option ℚ
deriving DecidableEq

/-- Output of precompute_consensus_data: the sets of strong-agreement and
strong-disagreement thought ids, represented as lists. -/
structure ConsensusData where
  strong_agree_thoughts : List String
  strong_disagree_thoughts : List String

/-- Embedding of calculate_asc_score in calculate_pri.py: with empty
consensus sets the score is missing; otherwise the participant votes are
restricted to consensus thoughts, missing votes are skipped, and the score
is the count of votes against consensus (disagreement with a
strong-agreement thought, or agreement with a strong-disagreement thought)
over the count of valid consensus votes, missing when that count is 0. -/
def calculate_asc_score (participant_id : String) (binary_df : List VoteRow)
    (consensus_data : ConsensusData) : Option ℚ :=
  let strong_agree := consensus_data.strong_agree_thoughts
  let strong_disagree := consensus_data.strong_disagree_thoughts
  let all_consensus := strong_agree ++ strong_disagree
  if all_consensus.isEmpty then none
  else
    let participant_binary := binary_df.filter (fun r => r.participant_id = participant_id)
    let consensus_votes := participant_binary.filter (fun r => decide (r.thought_id ∈ all_consensus))
    if consensus_votes.isEmpty then none
    else
      let valid_votes := consensus_votes.filter (fun r => r.vote.isSome)
      let total_consensus_votes := valid_votes.length
      let against_consensus_count :=
        (valid_votes.filter (fun r =>
          if r.thought_id ∈ strong_agree ∧ r.vote = some 0 then true
          else if r.thought_id ∈ strong_disagree ∧ r.vote = some 1 then true
          else false)).length
      if total_consensus_votes = 0 then none
      else some ((against_consensus_count : ℚ) / (total_consensus_votes : ℚ))

/-- Valid consensus votes of a participant: votes in the binary table cast
by the participant on a thought of either consensus set whose vote value is
not missing (the votes counted by total_consensus_votes in
calculate_asc_score). -/
def valid_consensus_votes (participant_id : String) (binary_df : List VoteRow)
    (consensus_data : ConsensusData) : List VoteRow :=
  binary_df.filter (fun r =>
    r.participant_id = participant_id ∧
    (r.thought_id ∈ consensus_data.strong_agree_thoughts ∨
      r.thought_id ∈ consensus_data.strong_disagree_thoughts) ∧
    r.vote.isSome)

/-- Votes against consensus among the valid consensus votes: a disagree
vote on a strong-agreement thought or an agree vote on a
strong-disagreement thought. -/
def against_consensus_votes (participant_id : String) (binary_df : List VoteRow)
    (consensus_data : ConsensusData) : List VoteRow :=
  (valid_consensus_votes participant_id binary_df consensus_data).filter (fun r =>
    (r.thought_id ∈ consensus_data.strong_agree_thoughts ∧ r.vote = some 0) ∨
    (r.thought_id ∈ consensus_data.strong_disagree_thoughts ∧ r.vote = some 1))

/-- Insertion of a rational into a sorted list (helper for the sort
underlying the pandas median and quantile). -/
def insertRat (x : ℚ) : List ℚ → List ℚ
  | [] => [x]
  | y :: ys => if x ≤ y then x :: y :: ys else y :: insertRat x ys

/-- Insertion sort of a list of rationals, ascending. -/
def sortRat (xs : List ℚ) : List ℚ :=
  xs.foldr insertRat []

/-- Minimum of a list of rationals, 0 on the empty list (only applied to
nonempty lists). -/
def listMin : List ℚ → ℚ
  | [] => 0
  | x :: xs => xs.foldl min x

/-- Maximum of a list of rationals, 0 on the empty list (only applied to
nonempty lists). -/
def listMax : List ℚ → ℚ
  | [] => 0
  | x :: xs => xs.foldl max x

/-- Median as computed by pandas Series.median over the non-missing values:
middle element of the sorted values for odd length, mean of the two middle
elements for even length. -/
def median (xs : List ℚ) : ℚ :=
  let s := sortRat xs
  let n := s.length
  if n % 2 = 1 then s.getD (n / 2) 0
  else (s.getD (n / 2 - 1) 0 + s.getD (n / 2) 0) / 2

/-- Embedding of min_max_normalize in normalize_and_calculate_pri.  A
series of cells (none is NaN) is returned unchanged when all values are
missing; otherwise missing cells are filled with the median of the
non-missing values, the filled minimum and maximum are taken, all-equal
series normalize to one half, a reasonable maximum cap rescales between the
minimum and the cap with values above the cap set to 1 but only when the
filled maximum exceeds the cap, otherwise the series rescales between
minimum and maximum; an optional inversion maps x to 1 - x; finally the
originally missing cells are restored to missing. -/
def min_max_normalize (series : List (Option ℚ)) (invert : Bool)
    (reasonable_max : Option ℚ) : List (Option ℚ) :=
  if (series.filterMap id).isEmpty then series
  else
    let median_val := median (series.filterMap id)
    let filled_series := series.map (fun o => o.getD median_val)
    let min_val := listMin filled_series
    let max_val := listMax filled_series
    let normalized :=
      if min_val = max_val then filled_series.map (fun _ => (1 / 2 : ℚ))
      else
        match reasonable_max with
        | some rm =>
          if max_val > rm then
            filled_series.map (fun v => if v > rm then 1 else (v - min_val) / (rm - min_val))
          else
            filled_series.map (fun v => (v - min_val) / (max_val - min_val))
        | none => filled_series.map (fun v => (v - min_val) / (max_val - min_val))
    let inverted := if invert then normalized.map (fun x => 1 - x) else normalized
    (series.zip inverted).map (fun p =>
      match p.1 with
      | none => none
      | some _ => some p.2)

/-- Minimum of the median-filled series (the min_val of
min_max_normalize). -/
def population_min (series : List (Option ℚ)) : ℚ :=
  listMin (series.map (fun o => o.getD (median (series.filterMap id))))

/-- Maximum of the median-filled series (the max_val of
min_max_normalize). -/
def population_max (series : List (Option ℚ)) : ℚ :=
  listMax (series.map (fun o => o.getD (median (series.filterMap id))))

/-- Pointwise value computed by min_max_normalize on a present cell: the
same branch structure as the series computation, expressed per value. -/
def norm_fun (series : List (Option ℚ)) (invert : Bool)
    (reasonable_max : Option ℚ) : ℚ → ℚ :=
  let min_val := population_min series
  let max_val := population_max series
  let base : ℚ → ℚ :=
    if min_val = max_val then fun _ => 1 / 2
    else
      match reasonable_max with
      | some rm =>
        if max_val > rm then fun v => if v > rm then 1 else (v - min_val) / (rm - min_val)
        else fun v => (v - min_val) / (max_val - min_val)
      | none => fun v => (v - min_val) / (max_val - min_val)
  if invert then fun v => 1 - base v else base

/-- Linear-interpolation quantile as computed by pandas Series.quantile
with the default interpolation: position q times (n - 1) in the sorted
list, interpolating between the neighbouring elements. -/
def quantile_linear (xs : List ℚ) (q : ℚ) : ℚ :=
  let s := sortRat xs
  let n := s.length
  let pos : ℚ := q * ((n : ℚ) - 1)
  let j : ℕ := (⌊pos⌋ : ℤ).toNat
  let g : ℚ := pos - (j : ℚ)
  let lo := s.getD j 0
  let hi := s.getD (j + 1) lo
  lo + g * (hi - lo)

/-- One row of the final PRI table as used by
identify_unreliable_participants: the participant id and the 1-5 scale
score column (none is NaN). -/
structure ScoreRow where
  participant_id : String
  pri_scale_1_5 : Option ℚ
deriving DecidableEq

/-- Lower outlier bound of the method outliers branch of
identify_unreliable_participants: Q1 minus 1.5 times the interquartile
range of the non-missing 1-5 scale scores. -/
def outlier_lower_bound (pri_signals_df : List ScoreRow) : ℚ :=
  let valid_scores := pri_signals_df.filterMap (fun r => r.pri_scale_1_5)
  let q1 := quantile_linear valid_scores 0.25
  let q3 := quantile_linear valid_scores 0.75
  let iqr := q3 - q1
  q1 - 1.5 * iqr

/-- Embedding of identify_unreliable_participants with the method
outliers: empty result when no score is valid, otherwise the participants
whose score is strictly below the lower outlier bound (missing scores
compare false, as NaN comparisons do in pandas). -/
def identify_unreliable_participants (pri_signals_df : List ScoreRow) : List String :=
  let valid_scores := pri_signals_df.filterMap (fun r => r.pri_scale_1_5)
  if valid_scores.length = 0 then []
  else
    (pri_signals_df.filter (fun r =>
      match r.pri_scale_1_5 with
      | some v => decide (v < outlier_lower_bound pri_signals_df)
      | none => false)).map (fun r => r.participant_id)

/-- One output row of calculate_all_pri_signals: the participant id and
the four raw signal values (none is NaN). -/
structure SignalRow where
  participant_id : String
  duration_seconds : Option ℚ
  low_quality_perc : Option ℚ
  universal_disagreement_perc : Option ℚ
  asc_score_raw : Option ℚ
deriving DecidableEq

/-- The try block of the participant loop in calculate_all_pri_signals:
the four signal calculators run in sequence, each may raise (the Except
error), and on success the four raw values are produced.  The calculators
are passed as functions, as the loop body only sequences their calls. -/
def try_calculate_signals
    (fDuration fLowQuality fUniversal fASC : String → Except String (Option ℚ))
    (participant_id : String) :
    Except String (Option ℚ × Option ℚ × Option ℚ × Option ℚ) := do
  let d ← fDuration participant_id
  let l ← fLowQuality participant_id
  let u ← fUniversal participant_id
  let a ← fASC participant_id
  pure (d, l, u, a)

/-- One iteration of the participant loop of calculate_all_pri_signals:
the result row on success, the all-missing error row when any signal
computation raises. -/
def process_participant
    (fDuration fLowQuality fUniversal fASC : String → Except String (Option ℚ))
    (participant_id : String) : SignalRow :=
  match try_calculate_signals fDuration fLowQuality fUniversal fASC participant_id with
  | Except.ok (d, l, u, a) =>
    { participant_id := participant_id, duration_seconds := d, low_quality_perc := l,
      universal_disagreement_perc := u, asc_score_raw := a }
  | Except.error _ =>
    { participant_id := participant_id, duration_seconds := none, low_quality_perc := none,
      universal_disagreement_perc := none, asc_score_raw := none }

/-- Helper for the pandas unique operation: first occurrences of the list
elements not already seen, in order. -/
def unique_participant_ids_aux : List String → List String → List String
  | [], _ => []
  | x :: xs, seen =>
    if x ∈ seen then unique_participant_ids_aux xs seen
    else x :: unique_participant_ids_aux xs (x :: seen)

/-- The all_participant_ids computation of load_data: unique values of the
binary-vote participant column in order of first appearance (pandas
unique). -/
def unique_participant_ids (l : List String) : List String :=
  unique_participant_ids_aux l []

/-- The participant_limit truncation at the top of
calculate_all_pri_signals: the first min(limit, length) ids when a limit
is given. -/
def apply_participant_limit (limit : Option ℕ) (ids : List String) : List String :=
  match limit with
  | none => ids
  | some n => ids.take (min n ids.length)

/-- Embedding of the participant loop of calculate_all_pri_signals (LLM
judge disabled): after the optional truncation, one row is appended per
participant id, the computed row on success and the all-missing row when
the try block raises. -/
def calculate_all_pri_signals (all_participant_ids : List String) (limit : Option ℕ)
    (fDuration fLowQuality fUniversal fASC : String → Except String (Option ℚ)) :
    List SignalRow :=
  (apply_participant_limit limit all_participant_ids).map
    (process_participant fDuration fLowQuality fUniversal fASC)

/-- The MAX_CONCURRENT_REQUESTS constant of batch_process_llm_judge. -/
def MAX_CONCURRENT_REQUESTS : ℕ := 200

/-- Number of judge models in the default LLMJudgeConfig models list
(anthropic, openai and google entries), the per-participant fan-out of
calculate_llm_judge_score. -/
def llm_judge_model_count : ℕ := 3

/-- Abstract state of a batch_process_llm_judge run: participants that have
not yet entered process_participant_with_semaphore, the participants
currently holding the semaphore (each with its count of in-flight judge
requests and of judge calls not yet issued), and the participants whose
slot has been released. -/
structure BatchState where
  idle : ℕ
  active : List (ℕ × ℕ)
  released : ℕ
deriving DecidableEq

/-- Interleaving semantics of the semaphore discipline in
batch_process_llm_judge and calculate_llm_judge_score: a participant
acquires the semaphore only while fewer than cap participants hold it
(asyncio.Semaphore), then issues its fanout judge requests one by one
(the asyncio.gather fan-out over the configured models), each request later
completes, and the slot is released once the participant has no request
left.  cap is MAX_CONCURRENT_REQUESTS and fanout the model count. -/
inductive BatchStep (cap fanout : ℕ) : BatchState → BatchState → Prop where
  | acquire {i : ℕ} {a : List (ℕ × ℕ)} {d : ℕ} (h : a.length < cap) :
      BatchStep cap fanout ⟨i + 1, a, d⟩ ⟨i, (0, fanout) :: a, d⟩
  | start_req {i d k p : ℕ} {l r : List (ℕ × ℕ)} :
      BatchStep cap fanout ⟨i, l ++ (k, p + 1) :: r, d⟩ ⟨i, l ++ (k + 1, p) :: r, d⟩
  | finish_req {i d k p : ℕ} {l r : List (ℕ × ℕ)} :
      BatchStep cap fanout ⟨i, l ++ (k + 1, p) :: r, d⟩ ⟨i, l ++ (k, p) :: r, d⟩
  | release {i d : ℕ} {l r : List (ℕ × ℕ)} :
      BatchStep cap fanout ⟨i, l ++ (0, 0) :: r, d⟩ ⟨i, l ++ r, d + 1⟩

/-- Reachability of a batch state from the initial state with the given
number of idle participants. -/
def BatchReachable (cap fanout participants : ℕ) (s : BatchState) : Prop :=
  Relation.ReflTransGen (BatchStep cap fanout) ⟨participants, [], 0⟩ s

/-- Number of judge requests simultaneously in flight in a batch state. -/
def in_flight_requests (s : BatchState) : ℕ :=
  (s.active.map Prod.fst).sum

/-- Number of participants simultaneously holding a semaphore slot. -/
def slot_holders (s : BatchState) : ℕ :=
  s.active.length

/-- A weight applied to a value in the unit interval yields a product
between 0 and the weight. -/
lemma weighted_term_bounds (w x : ℚ) (hw : 0 ≤ w) (hx0 : 0 ≤ x) (hx1 : x ≤ 1) :
    0 ≤ x * w ∧ x * w ≤ w :=
  ⟨mul_nonneg hx0 hw, by nlinarith⟩

/-- C2: when ASC is missing for the whole population, the heuristic fusion
redistributes the ASC weight evenly over the three remaining components,
turning the default weights 0.30, 0.30, 0.20, 0.20 into 0.30 + 1/15,
0.30 + 1/15, 0.20 + 1/15, and the enhanced weight set redistributes the
ASC weight evenly over its four remaining components; in every case the
active weights sum to 1 before the dot product. -/
theorem asc_weight_redistribution_exact :
    heuristic_weights get_config false = [0.30 + 1/15, 0.30 + 1/15, 0.20 + 1/15]
    ∧ (∀ asc_available : Bool, (heuristic_weights get_config asc_available).sum = 1)
    ∧ enhanced_weights get_config false =
        [0.20 + 0.15 / 4, 0.20 + 0.15 / 4, 0.15 + 0.15 / 4, 0.30 + 0.15 / 4]
    ∧ (∀ asc_available : Bool, (enhanced_weights get_config asc_available).sum = 1) := by
  refine ⟨?_, ?_, ?_, ?_⟩
  · norm_num [heuristic_weights, get_config]
  · intro b; cases b <;> norm_num [heuristic_weights, get_config]
  · norm_num [enhanced_weights, get_config]
  · intro b; cases b <;> norm_num [enhanced_weights, get_config]

/-- C7 counterexample: vote normalization in load_data is not
case-insensitive; the lowercase spelling maps to 1 but the all-uppercase
spelling of the same word maps to missing. -/
theorem vote_numeric_case_insensitive_cex :
    vote_numeric "agree" = some 1 ∧ vote_numeric "AGREE" = none := by
  exact ⟨rfl, rfl⟩

/-- C7 amended: vote normalization maps exactly the four literal strings
Agree, agree, Disagree, disagree (1 for the first two, 0 for the others);
every other value, including any other casing, becomes missing. -/
theorem vote_numeric_exact_casings :
    vote_numeric "Agree" = some 1 ∧ vote_numeric "agree" = some 1
    ∧ vote_numeric "Disagree" = some 0 ∧ vote_numeric "disagree" = some 0
    ∧ ∀ s : String, s ≠ "Agree" → s ≠ "agree" → s ≠ "Disagree" → s ≠ "disagree" →
        vote_numeric s = none := by
  refine ⟨rfl, rfl, rfl, rfl, ?_⟩
  intro s h1 h2 h3 h4
  simp [vote_numeric, h1, h2, h3, h4]

/-- C7 amended witness: the all-uppercase spelling is none of the four
mapped strings and normalizes to missing. -/
theorem vote_numeric_exact_casings_witness :
    vote_numeric "AGREE" = none :=
  vote_numeric_exact_casings.2.2.2.2 "AGREE" (by decide) (by decide) (by decide) (by decide)

/-- C4: parse_percentage is total and follows the stated contract: a
number above 1 is divided by 100 and a number at most 1 passes through; a
string ending in a percent sign parses the prefix and divides by 100; a
bare dash and the empty string are missing; any string that fails numeric
parsing is missing; and the four quoted evaluations hold. -/
theorem parse_percentage_contract :
    (∀ x : ℚ, parse_percentage (PyVal.num x) = some (if x > 1 then x / 100 else x))
    ∧ (∀ (s : String) (x : ℚ), ends_with_percent (pyStrip s) = true →
        strToFloat? (rstripPercent (pyStrip s)) = some x →
        parse_percentage (PyVal.str s) = some (x / 100))
    ∧ parse_percentage (PyVal.str "-") = none
    ∧ parse_percentage (PyVal.str "") = none
    ∧ (∀ s : String, ¬ends_with_percent (pyStrip s) = true →
        ¬(pyStrip s = "-" ∨ pyStrip s = " - ") → strToFloat? (pyStrip s) = none →
        parse_percentage (PyVal.str s) = none)
    ∧ parse_percentage PyVal.nan = none
    ∧ parse_percentage (PyVal.str "73%") = some 0.73
    ∧ parse_percentage (PyVal.num 0.5) = some 0.5
    ∧ parse_percentage (PyVal.num 150) = some 1.5 := by
  refine ⟨fun x => rfl, ?_, ?_, ?_, ?_, rfl, ?_, ?_, ?_⟩
  · intro s x h1 h2
    simp [parse_percentage, h1, h2]
  · norm_num +decide [parse_percentage, pyStrip, ends_with_percent]
  · norm_num +decide [parse_percentage, pyStrip, ends_with_percent, strToFloat?]
  · intro s h1 h2 h3
    simp [parse_percentage, h1, h2, h3]
  · norm_num +decide [parse_percentage, pyStrip, ends_with_percent, rstripPercent,
      strToFloat?, digitsVal, show digitsNat [Char.ofNat 55, Char.ofNat 51] = 73 from rfl]
  · norm_num [parse_percentage]
  · norm_num [parse_percentage]

/-- C4 witness: the percent branch applied at the string 73% and the
failing-parse branch applied at a non-numeric string. -/
theorem parse_percentage_contract_witness :
    parse_percentage (PyVal.str "73%") = some ((73 : ℚ) / 100)
    ∧ parse_percentage (PyVal.str "abc") = none :=
  ⟨parse_percentage_contract.2.1 "73%" 73 (by decide)
      (by norm_num +decide [pyStrip, rstripPercent, strToFloat?, digitsVal,
        show digitsNat [Char.ofNat 55, Char.ofNat 51] = 73 from rfl]),
   parse_percentage_contract.2.2.2.2.1 "abc" (by decide) (by decide)
      (by norm_num +decide [pyStrip, strToFloat?])⟩

/-- C1: whenever every normalized signal contributing to the active
weighted fusion lies in the unit interval, the fused PRI score lies in the
unit interval, for the heuristic and the enhanced weight set, with or
without ASC weight redistribution, because the active weights are
non-negative and sum to 1. -/
theorem pri_score_unit_interval (config : PRIConfig)
    (hwD : 0 ≤ config.DURATION_WEIGHT) (hwL : 0 ≤ config.LOW_QUALITY_TAG_WEIGHT)
    (hwU : 0 ≤ config.UNIVERSAL_DISAGREEMENT_WEIGHT) (hwA : 0 ≤ config.ASC_WEIGHT)
    (hwDl : 0 ≤ config.DURATION_WEIGHT_LLM) (hwLl : 0 ≤ config.LOW_QUALITY_TAG_WEIGHT_LLM)
    (hwUl : 0 ≤ config.UNIVERSAL_DISAGREEMENT_WEIGHT_LLM) (hwAl : 0 ≤ config.ASC_WEIGHT_LLM)
    (hwJ : 0 ≤ config.LLM_JUDGE_WEIGHT)
    (hsumH : config.DURATION_WEIGHT + config.LOW_QUALITY_TAG_WEIGHT +
      config.UNIVERSAL_DISAGREEMENT_WEIGHT + config.ASC_WEIGHT = 1)
    (hsumE : config.DURATION_WEIGHT_LLM + config.LOW_QUALITY_TAG_WEIGHT_LLM +
      config.UNIVERSAL_DISAGREEMENT_WEIGHT_LLM + config.ASC_WEIGHT_LLM +
      config.LLM_JUDGE_WEIGHT = 1)
    (d l u a j : ℚ)
    (hd0 : 0 ≤ d) (hd1 : d ≤ 1) (hl0 : 0 ≤ l) (hl1 : l ≤ 1)
    (hu0 : 0 ≤ u) (hu1 : u ≤ 1) (ha0 : 0 ≤ a) (ha1 : a ≤ 1)
    (hj0 : 0 ≤ j) (hj1 : j ≤ 1) :
    ∀ asc_available : Bool,
      (0 ≤ pri_score_heuristic config asc_available d l u a ∧
        pri_score_heuristic config asc_available d l u a ≤ 1) ∧
      (0 ≤ pri_score_enhanced config asc_available d l u a j ∧
        pri_score_enhanced config asc_available d l u a j ≤ 1) := by
  have B1 := weighted_term_bounds config.DURATION_WEIGHT d hwD hd0 hd1
  have B2 := weighted_term_bounds config.LOW_QUALITY_TAG_WEIGHT l hwL hl0 hl1
  have B3 := weighted_term_bounds config.UNIVERSAL_DISAGREEMENT_WEIGHT u hwU hu0 hu1
  have B4 := weighted_term_bounds config.ASC_WEIGHT a hwA ha0 ha1
  have R1 := weighted_term_bounds (config.DURATION_WEIGHT + config.ASC_WEIGHT / 3) d
    (by linarith) hd0 hd1
  have R2 := weighted_term_bounds (config.LOW_QUALITY_TAG_WEIGHT + config.ASC_WEIGHT / 3) l
    (by linarith) hl0 hl1
  have R3 := weighted_term_bounds (config.UNIVERSAL_DISAGREEMENT_WEIGHT + config.ASC_WEIGHT / 3) u
    (by linarith) hu0 hu1
  have E1 := weighted_term_bounds config.DURATION_WEIGHT_LLM d hwDl hd0 hd1
  have E2 := weighted_term_bounds config.LOW_QUALITY_TAG_WEIGHT_LLM l hwLl hl0 hl1
  have E3 := weighted_term_bounds config.UNIVERSAL_DISAGREEMENT_WEIGHT_LLM u hwUl hu0 hu1
  have E4 := weighted_term_bounds config.ASC_WEIGHT_LLM a hwAl ha0 ha1
  have E5 := weighted_term_bounds config.LLM_JUDGE_WEIGHT j hwJ hj0 hj1
  have F1 := weighted_term_bounds (config.DURATION_WEIGHT_LLM + config.ASC_WEIGHT_LLM / 4) d
    (by linarith) hd0 hd1
  have F2 := weighted_term_bounds (config.LOW_QUALITY_TAG_WEIGHT_LLM + config.ASC_WEIGHT_LLM / 4) l
    (by linarith) hl0 hl1
  have F3 := weighted_term_bounds
    (config.UNIVERSAL_DISAGREEMENT_WEIGHT_LLM + config.ASC_WEIGHT_LLM / 4) u
    (by linarith) hu0 hu1
  have F4 := weighted_term_bounds (config.LLM_JUDGE_WEIGHT + config.ASC_WEIGHT_LLM / 4) j
    (by linarith) hj0 hj1
  intro b
  cases b <;>
    simp only [pri_score_heuristic, pri_score_enhanced, Bool.false_eq_true, if_false, if_true] <;>
    refine ⟨⟨?_, ?_⟩, ?_, ?_⟩ <;>
    [linarith [R1.1, R2.1, R3.1]; linarith [R1.2, R2.2, R3.2];
     linarith [F1.1, F2.1, F3.1, F4.1]; linarith [F1.2, F2.2, F3.2, F4.2];
     linarith [B1.1, B2.1, B3.1, B4.1]; linarith [B1.2, B2.2, B3.2, B4.2];
     linarith [E1.1, E2.1, E3.1, E4.1, E5.1]; linarith [E1.2, E2.2, E3.2, E4.2, E5.2]]

/-- C1 witness: the default configuration weights are non-negative and sum
to 1, so signals of one half fuse to scores inside the unit interval in all
four fusion modes. -/
theorem pri_score_unit_interval_witness :
    (0 ≤ pri_score_heuristic get_config false (1/2) (1/2) (1/2) (1/2) ∧
      pri_score_heuristic get_config false (1/2) (1/2) (1/2) (1/2) ≤ 1) ∧
    (0 ≤ pri_score_enhanced get_config true (1/2) (1/2) (1/2) (1/2) (1/2) ∧
      pri_score_enhanced get_config true (1/2) (1/2) (1/2) (1/2) (1/2) ≤ 1) := by
  have h := pri_score_unit_interval get_config
    (by norm_num [get_config]) (by norm_num [get_config]) (by norm_num [get_config])
    (by norm_num [get_config]) (by norm_num [get_config]) (by norm_num [get_config])
    (by norm_num [get_config]) (by norm_num [get_config]) (by norm_num [get_config])
    (by norm_num [get_config]) (by norm_num [get_config])
    (1/2) (1/2) (1/2) (1/2) (1/2)
    (by norm_num) (by norm_num) (by norm_num) (by norm_num) (by norm_num)
    (by norm_num) (by norm_num) (by norm_num) (by norm_num) (by norm_num)
  exact ⟨(h false).1, (h true).2⟩

/-- Collapsing the three successive filters of calculate_asc_score into the
single conjunctive filter valid_consensus_votes. -/
lemma asc_filter_eq (pid : String) (binary_df : List VoteRow) (cd : ConsensusData) :
    ((binary_df.filter (fun r => r.participant_id = pid)).filter
        (fun r => decide (r.thought_id ∈ cd.strong_agree_thoughts ++ cd.strong_disagree_thoughts))).filter
        (fun r => r.vote.isSome)
      = valid_consensus_votes pid binary_df cd := by
  rw [List.filter_filter, List.filter_filter]
  unfold valid_consensus_votes
  apply List.filter_congr
  intro r _
  by_cases h1 : r.participant_id = pid <;>
  by_cases h2 : r.thought_id ∈ cd.strong_agree_thoughts ∨ r.thought_id ∈ cd.strong_disagree_thoughts <;>
  by_cases h3 : r.vote.isSome = true <;>
  simp [h1, h2, h3, List.mem_append]

/-- Closed form of calculate_asc_score: missing exactly when the
participant has no valid consensus vote, otherwise the against-consensus
ratio. -/
lemma calculate_asc_score_eq (pid : String) (binary_df : List VoteRow) (cd : ConsensusData) :
    calculate_asc_score pid binary_df cd =
      if valid_consensus_votes pid binary_df cd = [] then none
      else some (((against_consensus_votes pid binary_df cd).length : ℚ) /
        ((valid_consensus_votes pid binary_df cd).length : ℚ)) := by
  by_cases hE : (cd.strong_agree_thoughts ++ cd.strong_disagree_thoughts).isEmpty = true
  · have hag : cd.strong_agree_thoughts = [] := by
      rcases List.append_eq_nil.mp (List.isEmpty_iff.mp hE) with ⟨h, _⟩
      exact h
    have hdg : cd.strong_disagree_thoughts = [] := by
      rcases List.append_eq_nil.mp (List.isEmpty_iff.mp hE) with ⟨_, h⟩
      exact h
    have hv : valid_consensus_votes pid binary_df cd = [] := by
      simp [valid_consensus_votes, hag, hdg]
    simp [calculate_asc_score, hE, hv]
  · have hAg : (valid_consensus_votes pid binary_df cd).filter (fun r =>
        if r.thought_id ∈ cd.strong_agree_thoughts ∧ r.vote = some 0 then true
        else if r.thought_id ∈ cd.strong_disagree_thoughts ∧ r.vote = some 1 then true
        else false) = against_consensus_votes pid binary_df cd := by
      unfold against_consensus_votes
      apply List.filter_congr
      intro r _
      by_cases hA : r.thought_id ∈ cd.strong_agree_thoughts ∧ r.vote = some 0 <;>
      by_cases hB : r.thought_id ∈ cd.strong_disagree_thoughts ∧ r.vote = some 1 <;>
      simp [hA, hB]
    simp only [calculate_asc_score, hE, if_false, Bool.false_eq_true]
    rw [asc_filter_eq pid binary_df cd, hAg]
    by_cases hCV : ((binary_df.filter (fun r => decide (r.participant_id = pid))).filter
        (fun r => decide (r.thought_id ∈ cd.strong_agree_thoughts ++ cd.strong_disagree_thoughts))).isEmpty = true
    · have hvnil : valid_consensus_votes pid binary_df cd = [] := by
        rw [← asc_filter_eq pid binary_df cd, List.isEmpty_iff.mp hCV]
        simp
      simp [hCV, hvnil]
    · by_cases hL : (valid_consensus_votes pid binary_df cd).length = 0
      · have hnil : valid_consensus_votes pid binary_df cd = [] := List.length_eq_zero.mp hL
        simp [hCV, hL, hnil]
      · have hne : valid_consensus_votes pid binary_df cd ≠ [] := by
          intro h
          exact hL (by simp [h])
        have hex : ∃ x ∈ binary_df,
            (x.thought_id ∈ cd.strong_agree_thoughts ∨ x.thought_id ∈ cd.strong_disagree_thoughts) ∧
            x.participant_id = pid := by
          obtain ⟨r, hr⟩ := List.exists_mem_of_ne_nil _ hne
          simp only [valid_consensus_votes, List.mem_filter, decide_eq_true_eq] at hr
          exact ⟨r, hr.1, hr.2.2.1, hr.2.1⟩
        simp [hCV, hL, hne, hex]

/-- C3: calculate_asc_score is missing exactly when the participant cast
zero valid agree-or-disagree votes on thoughts of the precomputed consensus
sets (in particular when those sets are empty), and otherwise equals the
number of against-consensus votes divided by the number of valid consensus
votes cast. -/
theorem calculate_asc_score_missing_iff (pid : String) (binary_df : List VoteRow)
    (cd : ConsensusData) :
    (calculate_asc_score pid binary_df cd = none ↔
      valid_consensus_votes pid binary_df cd = [])
    ∧ (valid_consensus_votes pid binary_df cd ≠ [] →
      calculate_asc_score pid binary_df cd =
        some (((against_consensus_votes pid binary_df cd).length : ℚ) /
          ((valid_consensus_votes pid binary_df cd).length : ℚ))) := by
  constructor
  · by_cases h : valid_consensus_votes pid binary_df cd = [] <;>
      simp [calculate_asc_score_eq, h]
  · intro h
    simp [calculate_asc_score_eq, h]

/-- C3 witness: a participant with three valid votes on strong-agreement
thoughts, two agreeing and one disagreeing, has ASC one third. -/
theorem calculate_asc_score_missing_iff_witness :
    calculate_asc_score "p1"
      [⟨"p1", "t1", some 1⟩, ⟨"p1", "t2", some 1⟩, ⟨"p1", "t3", some 0⟩]
      ⟨["t1", "t2", "t3"], []⟩ = some ((1 : ℚ) / 3) := by
  have h := (calculate_asc_score_missing_iff "p1"
      [⟨"p1", "t1", some 1⟩, ⟨"p1", "t2", some 1⟩, ⟨"p1", "t3", some 0⟩]
      ⟨["t1", "t2", "t3"], []⟩).2 (by decide)
  rw [h]
  norm_num [show (against_consensus_votes "p1"
      [⟨"p1", "t1", some 1⟩, ⟨"p1", "t2", some 1⟩, ⟨"p1", "t3", some 0⟩]
      ⟨["t1", "t2", "t3"], []⟩).length = 1 from by decide,
    show (valid_consensus_votes "p1"
      [⟨"p1", "t1", some 1⟩, ⟨"p1", "t2", some 1⟩, ⟨"p1", "t3", some 0⟩]
      ⟨["t1", "t2", "t3"], []⟩).length = 3 from by decide]

/-- C8: with the IQR-outlier method, identify_unreliable_participants
returns exactly the participants whose 1-5 scale score is present and
strictly below Q1 - 1.5 IQR, where the quartiles are computed over the
non-missing scores; the embedding is a pure function of the score column,
so the input table is not modified. -/
theorem identify_unreliable_mem_iff (pri_signals_df : List ScoreRow) (pid : String) :
    pid ∈ identify_unreliable_participants pri_signals_df ↔
      ∃ v : ℚ, ScoreRow.mk pid (some v) ∈ pri_signals_df ∧
        v < outlier_lower_bound pri_signals_df := by
  simp only [identify_unreliable_participants]
  by_cases h : (pri_signals_df.filterMap (fun r => r.pri_scale_1_5)).length = 0
  · simp only [h, if_true]
    constructor
    · intro hmem
      exact absurd hmem (List.not_mem_nil pid)
    · rintro ⟨v, hv, _⟩
      have : v ∈ pri_signals_df.filterMap (fun r => r.pri_scale_1_5) :=
        List.mem_filterMap.mpr ⟨ScoreRow.mk pid (some v), hv, rfl⟩
      rw [List.length_eq_zero.mp h] at this
      exact absurd this (List.not_mem_nil v)
  · simp only [h, if_false]
    constructor
    · intro hmem
      obtain ⟨r, hr, hpid⟩ := List.mem_map.mp hmem
      obtain ⟨hrmem, hcond⟩ := List.mem_filter.mp hr
      rcases hval : r.pri_scale_1_5 with _ | v
      · rw [hval] at hcond
        simp at hcond
      · rw [hval] at hcond
        have hlt : v < outlier_lower_bound pri_signals_df := of_decide_eq_true hcond
        refine ⟨v, ?_, hlt⟩
        have : r = ScoreRow.mk pid (some v) := by
          cases r
          simp_all
        rwa [this] at hrmem
    · rintro ⟨v, hv, hlt⟩
      refine List.mem_map.mpr ⟨ScoreRow.mk pid (some v), ?_, rfl⟩
      refine List.mem_filter.mpr ⟨hv, ?_⟩
      simpa using hlt


lemma process_participant_id (fD fL fU fA : String → Except String (Option ℚ)) (pid : String) :
    (process_participant fD fL fU fA pid).participant_id = pid := by
  unfold process_participant
  split <;> rfl

lemma unique_participant_ids_aux_nodup :
    ∀ (l seen : List String), (unique_participant_ids_aux l seen).Nodup ∧
      ∀ y ∈ unique_participant_ids_aux l seen, y ∉ seen := by
  intro l
  induction l with
  | nil => intro seen; simp [unique_participant_ids_aux]
  | cons x xs ih =>
    intro seen
    by_cases hx : x ∈ seen
    · simpa [unique_participant_ids_aux, hx] using ih seen
    · obtain ⟨h1, h2⟩ := ih (x :: seen)
      simp only [unique_participant_ids_aux, hx, if_false]
      constructor
      · exact List.nodup_cons.mpr ⟨fun hmem => h2 x hmem (List.mem_cons_self x seen), h1⟩
      · intro y hy
        rcases List.mem_cons.mp hy with rfl | hy2
        · exact hx
        · exact fun hseen => h2 y hy2 (List.mem_cons_of_mem _ hseen)

lemma unique_participant_ids_nodup (l : List String) :
    (unique_participant_ids l).Nodup :=
  (unique_participant_ids_aux_nodup l []).1

lemma apply_participant_limit_nodup (limit : Option ℕ) (ids : List String)
    (h : ids.Nodup) : (apply_participant_limit limit ids).Nodup := by
  cases limit with
  | none => exact h
  | some n => exact h.sublist (List.take_sublist _ _)

/-- C10: calculate_all_pri_signals emits exactly one row per processed
participant id, in order of first appearance in the vote log (after the
optional limit truncation): the output ids equal the processed id list,
they contain no duplicate, and when the signal computation of a
participant raises, an all-missing row for that participant is still in
the output. -/
theorem calculate_all_pri_signals_rows (votes : List VoteRow) (limit : Option ℕ)
    (fD fL fU fA : String → Except String (Option ℚ)) :
    (calculate_all_pri_signals (unique_participant_ids (votes.map VoteRow.participant_id))
        limit fD fL fU fA).map SignalRow.participant_id
      = apply_participant_limit limit (unique_participant_ids (votes.map VoteRow.participant_id))
    ∧ ((calculate_all_pri_signals (unique_participant_ids (votes.map VoteRow.participant_id))
        limit fD fL fU fA).map SignalRow.participant_id).Nodup
    ∧ ∀ pid ∈ apply_participant_limit limit
        (unique_participant_ids (votes.map VoteRow.participant_id)),
        ∀ e, try_calculate_signals fD fL fU fA pid = Except.error e →
          SignalRow.mk pid none none none none ∈
            calculate_all_pri_signals (unique_participant_ids (votes.map VoteRow.participant_id))
              limit fD fL fU fA := by
  have hmap : (calculate_all_pri_signals (unique_participant_ids (votes.map VoteRow.participant_id))
      limit fD fL fU fA).map SignalRow.participant_id
      = apply_participant_limit limit (unique_participant_ids (votes.map VoteRow.participant_id)) := by
    unfold calculate_all_pri_signals
    rw [List.map_map]
    have : SignalRow.participant_id ∘ process_participant fD fL fU fA = id := by
      funext pid
      exact process_participant_id fD fL fU fA pid
    rw [this, List.map_id]
  refine ⟨hmap, ?_, ?_⟩
  · rw [hmap]
    exact apply_participant_limit_nodup limit _ (unique_participant_ids_nodup _)
  · intro pid hmem e herr
    have : process_participant fD fL fU fA pid = SignalRow.mk pid none none none none := by
      unfold process_participant
      rw [herr]
    rw [← this]
    exact List.mem_map_of_mem _ hmem

/-- C10 witness: a one-vote log whose duration calculator raises still
produces the all-missing row for its participant. -/
theorem calculate_all_pri_signals_rows_witness :
    SignalRow.mk "p1" none none none none ∈
      calculate_all_pri_signals
        (unique_participant_ids (([⟨"p1", "t1", some 1⟩] : List VoteRow).map VoteRow.participant_id))
        none (fun _ => Except.error "boom") (fun _ => Except.ok none)
        (fun _ => Except.ok none) (fun _ => Except.ok none) :=
  (calculate_all_pri_signals_rows [⟨"p1", "t1", some 1⟩] none
      (fun _ => Except.error "boom") (fun _ => Except.ok none)
      (fun _ => Except.ok none) (fun _ => Except.ok none)).2.2 "p1"
    (by decide) "boom" rfl


/-- Restoring missing cells after a pointwise transform of the median-filled
series equals mapping the transform over the present cells. -/
lemma restore_zip_map (G : Option ℚ → ℚ) (s : List (Option ℚ)) :
    ((s.zip (s.map G)).map (fun p =>
      match p.1 with | none => none | some _ => some p.2))
    = s.map (fun o => o.map (fun v => G (some v))) := by
  induction s with
  | nil => rfl
  | cons a t ih => cases a <;> simp [ih]

/-- The vectorized min_max_normalize acts pointwise: on present cells it
applies norm_fun, missing cells stay missing. -/
lemma min_max_normalize_eq_map (series : List (Option ℚ)) (invert : Bool)
    (reasonable_max : Option ℚ) (h : ¬(series.filterMap id).isEmpty = true) :
    min_max_normalize series invert reasonable_max
      = series.map (fun o => o.map (norm_fun series invert reasonable_max)) := by
  simp only [min_max_normalize, norm_fun, population_min, population_max, h, if_false,
    Bool.false_eq_true]
  set md := median (List.filterMap id series) with hmd
  set mn := listMin (List.map (fun o => o.getD md) series) with hmn
  set mx := listMax (List.map (fun o => o.getD md) series) with hmx
  have key : ∀ F : ℚ → ℚ,
      ((series.zip ((series.map (fun o => o.getD md)).map F)).map
        (fun p => match p.1 with | none => none | some _ => some p.2))
      = series.map (fun o => o.map F) := by
    intro F
    rw [List.map_map, restore_zip_map]
    simp
  have key2 : ∀ F : ℚ → ℚ,
      ((series.zip (((series.map (fun o => o.getD md)).map F).map (fun x => 1 - x))).map
        (fun p => match p.1 with | none => none | some _ => some p.2))
      = series.map (fun o => o.map (fun v => 1 - F v)) := by
    intro F
    rw [List.map_map, List.map_map, restore_zip_map]
    simp
  cases invert
  · simp only [Bool.false_eq_true, if_false]
    rcases reasonable_max with _ | rm
    · by_cases h1 : mn = mx
      · simp only [if_pos h1]
        exact key _
      · simp only [if_neg h1]
        exact key _
    · by_cases h1 : mn = mx
      · simp only [if_pos h1]
        exact key _
      · simp only [if_neg h1]
        by_cases h2 : mx > rm
        · simp only [if_pos h2]
          exact key _
        · simp only [if_neg h2]
          exact key _
  · simp only [if_true]
    rcases reasonable_max with _ | rm
    · by_cases h1 : mn = mx
      · simp only [if_pos h1]
        exact key2 _
      · simp only [if_neg h1]
        exact key2 _
    · by_cases h1 : mn = mx
      · simp only [if_pos h1]
        exact key2 _
      · simp only [if_neg h1]
        by_cases h2 : mx > rm
        · simp only [if_pos h2]
          exact key2 _
        · simp only [if_neg h2]
          exact key2 _


/-- C6: in min-max normalization, missing raw values enter the min and max
computation as the population median of the non-missing values (that is the
median-filled series the definition ranges over), yet the corresponding
output cell is always missing; and when the signal is not missing for the
whole population, every present raw value receives a present normalized
value. -/
theorem min_max_normalize_missing_policy (series : List (Option ℚ)) (invert : Bool)
    (reasonable_max : Option ℚ) (h : series.filterMap id ≠ []) (i : ℕ) :
    (series.get? i = some none →
      (min_max_normalize series invert reasonable_max).get? i = some none)
    ∧ ∀ v : ℚ, series.get? i = some (some v) →
      (min_max_normalize series invert reasonable_max).get? i =
        some (some (norm_fun series invert reasonable_max v)) := by
  have h2 : ¬(series.filterMap id).isEmpty = true := by
    simpa [List.isEmpty_iff] using h
  refine ⟨?_, ?_⟩
  · intro hmiss
    rw [min_max_normalize_eq_map series invert reasonable_max h2, List.get?_map, hmiss]
    rfl
  · intro v hv
    rw [min_max_normalize_eq_map series invert reasonable_max h2, List.get?_map, hv]
    rfl

/-- C6 witness: in a three-cell series with one missing cell, the missing
cell stays missing and a present cell gets a present normalized value. -/
theorem min_max_normalize_missing_policy_witness :
    (min_max_normalize [some 0, none, some 2] false none).get? 1 = some none
    ∧ (min_max_normalize [some 0, none, some 2] false none).get? 2 =
        some (some (norm_fun [some 0, none, some 2] false none 2)) :=
  ⟨(min_max_normalize_missing_policy [some 0, none, some 2] false none (by simp) 1).1 rfl,
   (min_max_normalize_missing_policy [some 0, none, some 2] false none (by simp) 2).2 2 rfl⟩

/-- C5 amended: for a capped signal, when the population maximum of the
median-filled series exceeds the cap, values above the cap normalize to 1
and values at or below the cap normalize linearly between the population
minimum and the cap; when the population maximum does not exceed the cap,
the series normalizes linearly between population minimum and maximum; a
signal without a cap always normalizes linearly between population minimum
and maximum (all with the population not entirely missing and not all
equal, before inversion). -/
theorem min_max_normalize_cap_behavior (series : List (Option ℚ)) (c : ℚ) (i : ℕ) (v : ℚ)
    (h : series.filterMap id ≠ [])
    (hneq : population_min series ≠ population_max series)
    (hv : series.get? i = some (some v)) :
    (population_max series > c →
      (min_max_normalize series false (some c)).get? i
        = some (some (if v > c then 1
            else (v - population_min series) / (c - population_min series))))
    ∧ (¬population_max series > c →
      (min_max_normalize series false (some c)).get? i
        = some (some ((v - population_min series) /
            (population_max series - population_min series))))
    ∧ (min_max_normalize series false none).get? i
        = some (some ((v - population_min series) /
            (population_max series - population_min series))) := by
  have h2 : ¬(series.filterMap id).isEmpty = true := by
    simpa [List.isEmpty_iff] using h
  refine ⟨?_, ?_, ?_⟩
  · intro hgt
    rw [min_max_normalize_eq_map series false (some c) h2, List.get?_map, hv]
    simp [norm_fun, if_neg hneq, if_pos hgt]
  · intro hle
    rw [min_max_normalize_eq_map series false (some c) h2, List.get?_map, hv]
    simp [norm_fun, if_neg hneq, if_neg hle]
  · rw [min_max_normalize_eq_map series false none h2, List.get?_map, hv]
    simp [norm_fun, if_neg hneq]

/-- C5 counterexample: with raw values 0 and 100 and cap 5400 the
population maximum 100 does not exceed the cap, so the code normalizes 100
to 1 by plain min-max, not to (100 - min) / (cap - min) = 1/54 as the
unconditional capped-linear reading of the claim would require. -/
theorem min_max_normalize_cap_cex :
    (min_max_normalize [some 0, some 100] false (some 5400)).get? 1 = some (some 1)
    ∧ ((100 : ℚ) - population_min [some 0, some 100]) /
        (5400 - population_min [some 0, some 100]) ≠ 1 := by
  constructor
  · norm_num [min_max_normalize, median, sortRat, insertRat, listMin, listMax]
    simp
  · norm_num [population_min, median, sortRat, insertRat, listMin, listMax]

/-- C5 amended witness: with raw values 0, 10000 and 100 and cap 5400 the
population maximum exceeds the cap and the value 100 normalizes to
(100 - min) / (cap - min). -/
theorem min_max_normalize_cap_behavior_witness :
    (min_max_normalize [some 0, some 10000, some 100] false (some 5400)).get? 2
      = some (some (if (100 : ℚ) > 5400 then 1
          else (100 - population_min [some 0, some 10000, some 100]) /
            (5400 - population_min [some 0, some 10000, some 100]))) :=
  (min_max_normalize_cap_behavior [some 0, some 10000, some 100] 5400 2 100
    (by simp)
    (by norm_num [population_min, population_max, median, sortRat, insertRat, listMin, listMax])
    rfl).1
    (by norm_num [population_max, median, sortRat, insertRat, listMin, listMax])


/-- One batch step preserves the semaphore invariant: at most cap active
participants, each with at most fanout requests counting in-flight and not
yet issued. -/
lemma batch_step_inv {cap fanout : ℕ} {s t : BatchState} (hstep : BatchStep cap fanout s t)
    (hs : s.active.length ≤ cap ∧ ∀ x ∈ s.active, x.1 + x.2 ≤ fanout) :
    t.active.length ≤ cap ∧ ∀ x ∈ t.active, x.1 + x.2 ≤ fanout := by
  obtain ⟨h1, h2⟩ := hs
  cases hstep with
  | acquire hlt =>
    refine ⟨by simpa using hlt, ?_⟩
    intro x hx
    rcases List.mem_cons.mp hx with rfl | hx2
    · simp
    · exact h2 x hx2
  | start_req =>
    constructor
    · simpa using h1
    · intro x hx
      rcases List.mem_append.mp hx with hl | hr
      · exact h2 x (List.mem_append.mpr (Or.inl hl))
      · rcases List.mem_cons.mp hr with rfl | hr2
        · have := h2 _ (List.mem_append.mpr (Or.inr (List.mem_cons_self _ _)))
          simp only at this ⊢
          omega
        · exact h2 x (List.mem_append.mpr (Or.inr (List.mem_cons_of_mem _ hr2)))
  | finish_req =>
    constructor
    · simpa using h1
    · intro x hx
      rcases List.mem_append.mp hx with hl | hr
      · exact h2 x (List.mem_append.mpr (Or.inl hl))
      · rcases List.mem_cons.mp hr with rfl | hr2
        · have := h2 _ (List.mem_append.mpr (Or.inr (List.mem_cons_self _ _)))
          simp only at this ⊢
          omega
        · exact h2 x (List.mem_append.mpr (Or.inr (List.mem_cons_of_mem _ hr2)))
  | release =>
    constructor
    · simp only [List.length_append, List.length_cons] at h1 ⊢
      omega
    · intro x hx
      rcases List.mem_append.mp hx with hl | hr
      · exact h2 x (List.mem_append.mpr (Or.inl hl))
      · exact h2 x (List.mem_append.mpr (Or.inr (List.mem_cons_of_mem _ hr)))

/-- The semaphore invariant holds in every reachable batch state. -/
lemma batch_reachable_inv (cap fanout participants : ℕ) (s : BatchState)
    (h : BatchReachable cap fanout participants s) :
    s.active.length ≤ cap ∧ ∀ x ∈ s.active, x.1 + x.2 ≤ fanout := by
  induction h with
  | refl => simp
  | tail _ hstep ih => exact batch_step_inv hstep ih

/-- A sum of first components each bounded by fanout is bounded by the
length times fanout. -/
lemma sum_map_fst_le (fanout : ℕ) (a : List (ℕ × ℕ))
    (h : ∀ x ∈ a, x.1 + x.2 ≤ fanout) :
    (a.map Prod.fst).sum ≤ a.length * fanout := by
  induction a with
  | nil => simp
  | cons x t ih =>
    simp only [List.map_cons, List.sum_cons, List.length_cons]
    have hx : x.1 ≤ fanout :=
      le_trans (Nat.le_add_right _ _) (h x (List.mem_cons_self _ _))
    have ht := ih (fun y hy => h y (List.mem_cons_of_mem _ hy))
    calc x.1 + (t.map Prod.fst).sum ≤ fanout + t.length * fanout :=
          Nat.add_le_add hx ht
      _ = (t.length + 1) * fanout := by ring

/-- C9 amended: the semaphore of batch_process_llm_judge is acquired once
per participant, so in every reachable state at most cap participants hold
a slot and at most cap times fanout judge requests are in flight, where
fanout is the per-participant judge fan-out; only when each participant
issues at most one call is the in-flight request count itself bounded by
the cap, as in the cap-2, five-participant, one-call example. -/
theorem batch_llm_inflight_bound (cap fanout participants : ℕ) (s : BatchState)
    (h : BatchReachable cap fanout participants s) :
    slot_holders s ≤ cap ∧ in_flight_requests s ≤ cap * fanout ∧
      (fanout ≤ 1 → in_flight_requests s ≤ cap) := by
  obtain ⟨h1, h2⟩ := batch_reachable_inv cap fanout participants s h
  have hf : in_flight_requests s ≤ cap * fanout :=
    le_trans (sum_map_fst_le fanout s.active h2)
      (Nat.mul_le_mul_right fanout h1)
  refine ⟨h1, hf, ?_⟩
  intro hone
  calc in_flight_requests s ≤ cap * fanout := hf
    _ ≤ cap * 1 := Nat.mul_le_mul_left cap hone
    _ = cap := Nat.mul_one cap

/-- C9 amended witness: with cap 2 and fan-out 1, the state reached after
one acquire satisfies all three bounds. -/
theorem batch_llm_inflight_bound_witness :
    slot_holders ⟨4, [(0, 1)], 0⟩ ≤ 2 ∧ in_flight_requests ⟨4, [(0, 1)], 0⟩ ≤ 2 * 1 ∧
      (1 ≤ 1 → in_flight_requests ⟨4, [(0, 1)], 0⟩ ≤ 2) :=
  batch_llm_inflight_bound 2 1 5 ⟨4, [(0, 1)], 0⟩
    (Relation.ReflTransGen.single (BatchStep.acquire (by decide)))

/-- From a fresh slot, a participant can issue its j-th request one step
at a time. -/
lemma batch_reach_starts (cap fanout idle released : ℕ) (rest : List (ℕ × ℕ)) :
    ∀ j, j ≤ fanout → Relation.ReflTransGen (BatchStep cap fanout)
      ⟨idle, (0, fanout) :: rest, released⟩ ⟨idle, (j, fanout - j) :: rest, released⟩ := by
  intro j
  induction j with
  | zero => intro _; simp only [Nat.sub_zero]; exact Relation.ReflTransGen.refl
  | succ n ih =>
    intro hle
    refine Relation.ReflTransGen.tail (ih (Nat.le_of_succ_le hle)) ?_
    have hsub : fanout - n = (fanout - (n + 1)) + 1 := by omega
    rw [hsub]
    exact BatchStep.start_req (l := [])

/-- Up to min cap participants can simultaneously hold a slot with all
fanout requests in flight. -/
lemma batch_reach_full (cap fanout participants : ℕ) :
    ∀ k, k ≤ cap → k ≤ participants →
      BatchReachable cap fanout participants
        ⟨participants - k, List.replicate k (fanout, 0), 0⟩ := by
  intro k
  induction k with
  | zero =>
    intro _ _
    simp only [Nat.sub_zero, List.replicate_zero]
    exact Relation.ReflTransGen.refl
  | succ n ih =>
    intro hcap hpart
    have h1 := ih (Nat.le_of_succ_le hcap) (Nat.le_of_succ_le hpart)
    have hacq : BatchStep cap fanout
        ⟨participants - n, List.replicate n (fanout, 0), 0⟩
        ⟨participants - (n + 1), (0, fanout) :: List.replicate n (fanout, 0), 0⟩ := by
      have hsub : participants - n = (participants - (n + 1)) + 1 := by omega
      rw [hsub]
      exact BatchStep.acquire (by simpa using Nat.lt_of_succ_le hcap)
    have h2 := batch_reach_starts cap fanout (participants - (n + 1)) 0
      (List.replicate n (fanout, 0)) fanout le_rfl
    have h3 := Relation.ReflTransGen.trans (Relation.ReflTransGen.tail h1 hacq) h2
    simpa [Nat.sub_self, List.replicate_succ] using h3

/-- C9 counterexample: with the code constants, cap 200 and three judge
models per participant, a run with 67 participants reaches a state with
201 judge requests simultaneously in flight, exceeding the configured
concurrency cap; the semaphore bounds concurrent participants, not
concurrent requests. -/
theorem batch_llm_inflight_cex :
    ∃ s : BatchState,
      BatchReachable MAX_CONCURRENT_REQUESTS llm_judge_model_count 67 s ∧
        MAX_CONCURRENT_REQUESTS < in_flight_requests s := by
  refine ⟨⟨0, List.replicate 67 (llm_judge_model_count, 0), 0⟩, ?_, ?_⟩
  · have := batch_reach_full MAX_CONCURRENT_REQUESTS llm_judge_model_count 67 67
      (by decide) le_rfl
    simpa using this
  · simp [in_flight_requests, MAX_CONCURRENT_REQUESTS, llm_judge_model_count,
      List.map_replicate, List.sum_replicate]

end PRI
